import Mathlib

/-!
Verification of the core processing logic of the image-converter repository
(`src/main.py`).  The Python code is shallowly embedded: images are grids of
abstract pixel values, the PIL encoders are abstracted by a size function
`size : Int → Nat` giving the byte size of encoding the current image at an
integer quality, and Python's floor division `//` on ints is `Int.fdiv`.
Python floats that appear in the source (resize ratios) are modelled by exact
arithmetic (`Nat` floor division, `ℚ` for the comparison with the spec's
rounding formula).
-/

/-- Output format, from `get_output_format` / the `output_format` setting:
one of `webp`, `jpg`, `jpeg`, `png` (`save_image` compares the lowered string
against these). -/
inductive ImgFormat
  | webp
  | jpg
  | jpeg
  | png
deriving DecidableEq, Repr

/-- State of the binary search of `find_quality_for_target_size`
(`src/main.py` lines 235-237): `low, high = 1, 100` and `best_quality = 85`. -/
structure SearchState where
  low : Int
  high : Int
  best : Int
deriving DecidableEq, Repr

/-- One iteration of the `for _ in range(10)` loop body of
`find_quality_for_target_size` (lines 239-256), for a format that has a
quality knob (webp / jpg / jpeg): probe `mid = (low + high) // 2`; if the
in-memory encode at `mid` fits in `target` bytes record `best = mid` and set
`low = mid + 1`, otherwise set `high = mid - 1`.  `size q` abstracts
`buffer.tell()` after `img.save(buffer, ..., quality=q)`. -/
def searchStep (size : Int → Nat) (target : Nat) (s : SearchState) : SearchState :=
  let mid := Int.fdiv (s.low + s.high) 2
  if size mid ≤ target then
    ⟨mid + 1, s.high, mid⟩
  else
    ⟨s.low, mid - 1, s.best⟩

/-- The loop of `find_quality_for_target_size` (lines 238-258) with explicit
remaining-iteration fuel.  Each iteration computes `mid`; for webp/jpg/jpeg it
probe-encodes to memory and updates the bounds as in `searchStep`; the
source's trailing `else: return mid` (line 248, "PNG doesn't support
quality") returns `mid` immediately for png.  When the fuel is exhausted the
function returns `best_quality`. -/
def searchLoop (fmt : ImgFormat) (size : Int → Nat) (target : Nat) : Nat → SearchState → Int
  | 0, s => s.best
  | fuel + 1, s =>
    let mid := Int.fdiv (s.low + s.high) 2
    if fmt = ImgFormat.png then mid
    else if size mid ≤ target then
      searchLoop fmt size target fuel ⟨mid + 1, s.high, mid⟩
    else
      searchLoop fmt size target fuel ⟨s.low, mid - 1, s.best⟩

/-- `ImageProcessor.find_quality_for_target_size` (lines 233-258): binary
search over quality starting from `low = 1, high = 100, best_quality = 85`
with a fixed budget of 10 iterations. -/
def find_quality_for_target_size (fmt : ImgFormat) (size : Int → Nat)
    (target_size_bytes : Nat) : Int :=
  searchLoop fmt size target_size_bytes 10 ⟨1, 100, 85⟩

/-- The list of quality values the loop of `find_quality_for_target_size`
probe-encodes to memory (the `mid` of each executed iteration; for png no
probe encode happens because line 248 returns before any encode). -/
def probeList (fmt : ImgFormat) (size : Int → Nat) (target : Nat) :
    Nat → SearchState → List Int
  | 0, _ => []
  | fuel + 1, s =>
    let mid := Int.fdiv (s.low + s.high) 2
    if fmt = ImgFormat.png then []
    else if size mid ≤ target then
      mid :: probeList fmt size target fuel ⟨mid + 1, s.high, mid⟩
    else
      mid :: probeList fmt size target fuel ⟨s.low, mid - 1, s.best⟩

/-- The probe encodes performed by a full run of
`find_quality_for_target_size`. -/
def probe_qualities (fmt : ImgFormat) (size : Int → Nat) (target : Nat) : List Int :=
  probeList fmt size target 10 ⟨1, 100, 85⟩

/-- Invariant of the quality binary search relative to `M`, the largest
quality in `[1, 100]` whose encoded size fits the target: the window `[low,
high]` still contains `M`, stays inside the meaningful range, and `best`
records `low - 1` (a fitting quality) as soon as the lower bound has moved. -/
def SearchInv (size : Int → Nat) (target : Nat) (M low high best : Int) : Prop :=
  1 ≤ low ∧ low ≤ M + 1 ∧ M ≤ high ∧ high ≤ 100 ∧
    (low = 1 ∨ (best = low - 1 ∧ size best ≤ target))

/-- An in-memory decoded raster: a width, a height, and an abstract pixel
value for each coordinate (only coordinates `x < width`, `y < height` are
meaningful). -/
structure Img where
  width : Nat
  height : Nat
  pixel : Nat → Nat → Nat

/-- PIL `Image.crop((left, upper, right, lower))` restricted to in-bounds
boxes as used by `process_image`: the result is `(right - left) ×
(lower - upper)` and its pixel `(x, y)` is the source pixel
`(x + left, y + upper)`. -/
def Img.crop (img : Img) (left upper right lower : Nat) : Img :=
  { width := right - left
    height := lower - upper
    pixel := fun x y => img.pixel (x + left) (y + upper) }

/-- The horizontal-cut branch of `ImageProcessor.process_image`
(`src/main.py` lines 108-117): `half_height = height // 2`, top half
`crop((0, 0, width, half_height))`, bottom half
`crop((0, half_height, width, height))`. -/
def cut_horizontal (img : Img) : Img × Img :=
  let half_height := img.height / 2
  (img.crop 0 0 img.width half_height, img.crop 0 half_height img.width img.height)

/-- The vertical-cut branch of `ImageProcessor.process_image` (lines
119-128): `half_width = width // 2`, left half `crop((0, 0, half_width,
height))`, right half `crop((half_width, 0, width, height))`. -/
def cut_vertical (img : Img) : Img × Img :=
  let half_width := img.width / 2
  (img.crop 0 0 half_width img.height, img.crop half_width 0 img.width img.height)

/-- Extensional equality of images: same dimensions and the same pixel at
every in-bounds coordinate. -/
def Img.Eqv (a b : Img) : Prop :=
  a.width = b.width ∧ a.height = b.height ∧
    ∀ x y, x < b.width → y < b.height → a.pixel x y = b.pixel x y

/-- Stacking one image on top of another (the recombination the claim
describes for a horizontal cut). -/
def vstack (top bottom : Img) : Img :=
  { width := top.width
    height := top.height + bottom.height
    pixel := fun x y =>
      if y < top.height then top.pixel x y else bottom.pixel x (y - top.height) }

/-- Placing one image beside another (the recombination the claim describes
for a vertical cut). -/
def hstack (leftI rightI : Img) : Img :=
  { width := leftI.width + rightI.width
    height := leftI.height
    pixel := fun x y =>
      if x < leftI.width then leftI.pixel x y else rightI.pixel (x - leftI.width) y }

/-- Cut modes from `get_cut_mode`. -/
inductive CutMode
  | noCut
  | horizontal
  | vertical
deriving DecidableEq, Repr

/-- Resize modes the settings dictionary can carry (`get_settings` lines
894-904). -/
inductive ResizeMode
  | preset
  | custom
  | percentage
deriving DecidableEq, Repr

/-- The settings record assembled by `ImageConverterApp.get_settings` (lines
872-914), restricted to the fields the processing core reads.  The filename
decoration fields and the watermark position / font-size / opacity fields are
UI data not involved in any verified property and are omitted. -/
structure Settings where
  output_format : ImgFormat
  quality : Int
  target_size_kb : Nat
  cut_mode : CutMode
  resize_enabled : Bool
  resize_mode : ResizeMode
  maintain_aspect : Bool
  preset_width : Nat
  custom_width : Nat
  custom_height : Nat
  scale_percentage : Nat
  watermark_enabled : Bool
  watermark_text : String
  strip_metadata : Bool
deriving DecidableEq, Repr

/-- `ImageProcessor.resize_image` (lines 130-158) at the level of image
dimensions.  Python's float expressions `int(img.height * ratio)` (with
`ratio = target_width / img.width`) and `int(dim * scale)` (with `scale =
pct / 100`) truncate the exact ratio toward zero, which for these
non-negative values is the floor, i.e. `Nat` division of the products.  PIL's
`Image.thumbnail` (the fit-within branch of `custom` mode) is library code
outside this repository and is abstracted by the `thumb` parameter. -/
def resize_dims (thumb : Nat → Nat → Nat → Nat → Nat × Nat)
    (width height : Nat) (s : Settings) : Nat × Nat :=
  match s.resize_mode with
  | ResizeMode.preset =>
    let target_width := s.preset_width
    let target_height := if s.maintain_aspect then height * target_width / width else height
    (target_width, target_height)
  | ResizeMode.custom =>
    if s.maintain_aspect then thumb width height s.custom_width s.custom_height
    else (s.custom_width, s.custom_height)
  | ResizeMode.percentage =>
    (width * s.scale_percentage / 100, height * s.scale_percentage / 100)

/-- Modelled from the spec's words (§4.1 step 2, `preset` mode): the height
the claim asserts, `round(height * target_width / width)`, as rounding of the
exact rational ratio. -/
def spec_preset_height (height target_width width : Nat) : Int :=
  round (((height * target_width : Nat) : ℚ) / (width : Nat))

/-- A concrete settings record selecting preset resize at width 400 with
aspect ratio maintained. -/
def presetSettings : Settings :=
  { output_format := ImgFormat.webp
    quality := 85
    target_size_kb := 0
    cut_mode := CutMode.noCut
    resize_enabled := true
    resize_mode := ResizeMode.preset
    maintain_aspect := true
    preset_width := 400
    custom_width := 1920
    custom_height := 1080
    scale_percentage := 100
    watermark_enabled := false
    watermark_text := ""
    strip_metadata := true }

/-- The one real encode performed by `ImageProcessor.save_image` (lines
210-231), as the encoder invocation it issues: `img.save(..., 'WEBP',
quality=q, method=6)`, `img.save(..., 'JPEG', quality=q, optimize=True)`, or
`img.save(..., 'PNG', optimize=True)` — the png call passes no quality. -/
inductive EncodeResult
  | webpEnc (img : Img) (quality : Int) (method : Nat)
  | jpegEnc (img : Img) (quality : Int) (optimize : Bool)
  | pngEnc (img : Img) (optimize : Bool)

/-- `ImageProcessor.save_image` (lines 210-231): read `quality` and
`target_size_kb` from the settings; when `target_size_kb > 0` replace the
quality by the result of the quality search at `target_size_kb * 1024`
bytes; then encode once in the configured format.  `encSize q` abstracts the
byte size of the in-memory probe encode of `img` at quality `q` in that
format. -/
def save_image (encSize : Int → Nat) (img : Img) (s : Settings) : EncodeResult :=
  let quality : Int :=
    if 0 < s.target_size_kb then
      find_quality_for_target_size s.output_format encSize (s.target_size_kb * 1024)
    else s.quality
  match s.output_format with
  | ImgFormat.webp => EncodeResult.webpEnc img quality 6
  | ImgFormat.jpg => EncodeResult.jpegEnc img quality true
  | ImgFormat.jpeg => EncodeResult.jpegEnc img quality true
  | ImgFormat.png => EncodeResult.pngEnc img true

/-- The batch loop of `ImageProcessor.run` (lines 39-57) with the per-file
work abstracted: `proc f` is `process_image(f)`, returning `ok` or raising an
error.  The whole `for` loop sits inside a single `try`, so the first raised
error ends the loop; the `except` clause emits one error message
`"Error: " + str(e)`.  The result is the list of files processed to
completion, in order, paired with the surfaced error message (if any);
per-file progress and the final statistics are emitted along the same
control flow and are not separately modelled. -/
def process_files (proc : Nat → Except String Unit) : List Nat → List Nat × Option String
  | [] => ([], none)
  | f :: rest =>
    match proc f with
    | Except.ok _ =>
      let r := process_files proc rest
      (f :: r.1, r.2)
    | Except.error e => ([], some ("Error: " ++ e))

/-- What `ImageConverterApp.process_images` (lines 916-961) does before any
file is touched: warn and stop when no files are selected; warn and stop when
the watermark is enabled with empty text; only then create the output
directory and hand the files and settings to the worker thread (modelled by
running the batch). -/
inductive AppOutcome
  | warnNoImages
  | warnWatermarkText
  | started (result : List Nat × Option String)

/-- `ImageConverterApp.process_images` (lines 916-961): the no-files guard,
then the watermark validation `settings['watermark_enabled'] and not
settings['watermark_text']`, and otherwise the batch start. -/
def process_images (proc : Nat → Except String Unit) (files : List Nat)
    (s : Settings) : AppOutcome :=
  if files.isEmpty then AppOutcome.warnNoImages
  else if s.watermark_enabled = true ∧ s.watermark_text = "" then
    AppOutcome.warnWatermarkText
  else AppOutcome.started (process_files proc files)

/-- For a format with a quality knob, one funded iteration of the loop is
exactly `searchStep`. -/
theorem searchLoop_succ_of_ne (fmt : ImgFormat) (hfmt : ¬ fmt = ImgFormat.png)
    (size : Int → Nat) (target : Nat) (fuel : Nat) (s : SearchState) :
    searchLoop fmt size target (fuel + 1) s
      = searchLoop fmt size target fuel (searchStep size target s) := by
  by_cases hc : size (Int.fdiv (s.low + s.high) 2) ≤ target
  · simp [searchLoop, searchStep, hfmt, hc]
  · simp [searchLoop, searchStep, hfmt, hc]

/-- Convergence of the bounded binary search: if the encoded size is monotone
in the quality and `M` is the largest fitting quality, then from any state
satisfying the invariant whose window length is at most `2 ^ fuel - 1` the
loop returns `M`.  (Once the window collapses the loop keeps probing `M`
itself, which fits, so the extra iterations of the fixed 10-iteration budget
leave the state unchanged.) -/
theorem searchLoop_converges (fmt : ImgFormat) (hfmt : ¬ fmt = ImgFormat.png)
    (size : Int → Nat) (target : Nat) (M : Int)
    (hmono : ∀ q r : Int, q ≤ r → size q ≤ size r)
    (hM1 : 1 ≤ M) (hMfit : size M ≤ target)
    (hMmax : ∀ p : Int, p ≤ 100 → size p ≤ target → p ≤ M) :
    ∀ (fuel : Nat) (low high best : Int), SearchInv size target M low high best →
      high + 1 - low ≤ 2 ^ fuel - 1 →
      searchLoop fmt size target fuel ⟨low, high, best⟩ = M := by
  intro fuel
  induction fuel with
  | zero =>
    intro low high best hs hlen
    obtain ⟨h1, h2, h3, h4, h5⟩ := hs
    simp only [pow_zero] at hlen
    rcases h5 with h5 | ⟨hb, _⟩
    · omega
    · simp only [searchLoop]
      omega
  | succ n ih =>
    intro low high best hs hlen
    obtain ⟨h1, h2, h3, h4, h5⟩ := hs
    rw [searchLoop_succ_of_ne fmt hfmt]
    have hmid2 : Int.fdiv (low + high) 2 = (low + high) / 2 :=
      Int.fdiv_eq_ediv _ (by norm_num)
    have hpow : (2 : ℤ) ^ (n + 1) = 2 * 2 ^ n := by ring
    have hpos : (0 : ℤ) < 2 ^ n := pow_pos (by norm_num) n
    rw [hpow] at hlen
    simp only [searchStep, hmid2]
    by_cases hex : low ≤ high
    · by_cases hfit : size ((low + high) / 2) ≤ target
      · rw [if_pos hfit]
        have hmM : (low + high) / 2 ≤ M := hMmax _ (by omega) hfit
        exact ih _ _ _ ⟨by omega, by omega, h3, h4, Or.inr ⟨by ring, by simpa using hfit⟩⟩
          (by omega)
      · rw [if_neg hfit]
        have hMmid : M < (low + high) / 2 := by
          by_contra hcon
          push_neg at hcon
          exact hfit (le_trans (hmono _ M hcon) hMfit)
        exact ih _ _ _ ⟨h1, h2, by omega, by omega, h5⟩ (by omega)
    · have hlow : low = M + 1 := by omega
      have hmidM : (low + high) / 2 = M := by omega
      have hfit : size ((low + high) / 2) ≤ target := by
        rw [hmidM]; exact hMfit
      rw [if_pos hfit]
      exact ih _ _ _ ⟨by omega, by omega, by omega, h4,
        Or.inr ⟨by omega, by simpa [hmidM] using hMfit⟩⟩ (by omega)

/-- Claim C1: for every image (abstracted by a monotone encoded-size
function) and target with at least one achievable quality in `[1, 100]`,
`find_quality_for_target_size` returns the maximum quality `q` in `[1, 100]`
with `size q ≤ target`, and when `q < 100` the next quality overshoots the
target. -/
theorem c1_quality_search_returns_max (fmt : ImgFormat) (hfmt : ¬ fmt = ImgFormat.png)
    (size : Int → Nat) (target : Nat)
    (hmono : ∀ q r : Int, q ≤ r → size q ≤ size r)
    (q : Int) (hq1 : 1 ≤ q) (hq100 : q ≤ 100) (hqfit : size q ≤ target) :
    (1 ≤ find_quality_for_target_size fmt size target ∧
      find_quality_for_target_size fmt size target ≤ 100) ∧
    size (find_quality_for_target_size fmt size target) ≤ target ∧
    (∀ p : Int, 1 ≤ p → p ≤ 100 → size p ≤ target →
      p ≤ find_quality_for_target_size fmt size target) ∧
    (find_quality_for_target_size fmt size target < 100 →
      target < size (find_quality_for_target_size fmt size target + 1)) := by
  classical
  set S : Finset ℤ := (Finset.Icc (1 : ℤ) 100).filter (fun p => size p ≤ target) with hS
  have hqS : q ∈ S := by
    simp only [hS, Finset.mem_filter, Finset.mem_Icc]
    exact ⟨⟨hq1, hq100⟩, hqfit⟩
  have hne : S.Nonempty := ⟨q, hqS⟩
  have hMS : S.max' hne ∈ (Finset.Icc (1 : ℤ) 100).filter (fun p => size p ≤ target) :=
    S.max'_mem hne
  rw [Finset.mem_filter, Finset.mem_Icc] at hMS
  obtain ⟨⟨hM1, hM100⟩, hMfit⟩ := hMS
  have hMmax : ∀ p : Int, p ≤ 100 → size p ≤ target → p ≤ S.max' hne := by
    intro p hp hpfit
    by_cases hp1 : 1 ≤ p
    · exact S.le_max' p (by
        simp only [hS, Finset.mem_filter, Finset.mem_Icc]
        exact ⟨⟨hp1, hp⟩, hpfit⟩)
    · omega
  have hr : find_quality_for_target_size fmt size target = S.max' hne := by
    unfold find_quality_for_target_size
    exact searchLoop_converges fmt hfmt size target (S.max' hne) hmono hM1 hMfit hMmax
      10 1 100 85 ⟨le_refl 1, by omega, hM100, le_refl 100, Or.inl rfl⟩ (by norm_num)
  rw [hr]
  refine ⟨⟨hM1, hM100⟩, hMfit, fun p _ hp2 hp3 => hMmax p hp2 hp3, fun hlt => ?_⟩
  by_contra hcon
  push_neg at hcon
  have := hMmax (S.max' hne + 1) (by omega) hcon
  omega

/-- Witness for C1 at `size q = q.toNat`, `target = 60`: quality 1 fits, and
the search returns the maximum fitting quality (here 60). -/
theorem c1_witness :
    ((fun z : Int => z.toNat) 1 ≤ 60) ∧
    ((1 ≤ find_quality_for_target_size ImgFormat.webp (fun z : Int => z.toNat) 60 ∧
      find_quality_for_target_size ImgFormat.webp (fun z : Int => z.toNat) 60 ≤ 100) ∧
    (fun z : Int => z.toNat) (find_quality_for_target_size ImgFormat.webp
      (fun z : Int => z.toNat) 60) ≤ 60 ∧
    (∀ p : Int, 1 ≤ p → p ≤ 100 → (fun z : Int => z.toNat) p ≤ 60 →
      p ≤ find_quality_for_target_size ImgFormat.webp (fun z : Int => z.toNat) 60) ∧
    (find_quality_for_target_size ImgFormat.webp (fun z : Int => z.toNat) 60 < 100 →
      60 < (fun z : Int => z.toNat)
        (find_quality_for_target_size ImgFormat.webp (fun z : Int => z.toNat) 60 + 1))) :=
  ⟨by decide,
    c1_quality_search_returns_max ImgFormat.webp (by decide) (fun z : Int => z.toNat) 60
      (fun _ _ h => Int.toNat_le_toNat h) 1 (by decide) (by decide) (by decide)⟩

/-- For a format with a quality knob, a funded iteration probes `mid` and
continues with `searchStep`. -/
theorem probeList_succ_of_ne (fmt : ImgFormat) (hfmt : ¬ fmt = ImgFormat.png)
    (size : Int → Nat) (target : Nat) (fuel : Nat) (s : SearchState) :
    probeList fmt size target (fuel + 1) s
      = Int.fdiv (s.low + s.high) 2
          :: probeList fmt size target fuel (searchStep size target s) := by
  by_cases hc : size (Int.fdiv (s.low + s.high) 2) ≤ target
  · simp [probeList, searchStep, hfmt, hc]
  · simp [probeList, searchStep, hfmt, hc]

/-- The loop body has no exhaustion test: for webp/jpg/jpeg every funded
iteration performs a probe encode, so the probe list always has exactly
`fuel` entries. -/
theorem probeList_length (fmt : ImgFormat) (hfmt : ¬ fmt = ImgFormat.png)
    (size : Int → Nat) (target : Nat) :
    ∀ (fuel : Nat) (s : SearchState), (probeList fmt size target fuel s).length = fuel := by
  intro fuel
  induction fuel with
  | zero => intro s; rfl
  | succ n ih =>
    intro s
    rw [probeList_succ_of_ne fmt hfmt]
    simp [ih]

/-- Claim C2 counterexample: with an encoded size that never fits (every
probe overshoots a zero-byte target), the search window is already exhausted
(`low > high`) after 6 iterations, yet the loop still performs 10 probe
encodes — the code has no `low > high` exit, so it does not terminate at
whichever of exhaustion and the 10-iteration budget comes first. -/
theorem c2_counterexample :
    (((searchStep (fun _ => 1) 0)^[6] ⟨1, 100, 85⟩ : SearchState).high
      < ((searchStep (fun _ => 1) 0)^[6] ⟨1, 100, 85⟩ : SearchState).low) ∧
    (probe_qualities ImgFormat.webp (fun _ => 1) 0).length = 10 := by
  refine ⟨by decide, by decide⟩

/-- Claim C2 (amended): the quality search always runs its fixed 10
iterations — it never exits early on exhaustion — and for the formats with a
quality knob it therefore performs exactly (in particular at most) 10 probe
encodes regardless of image size or target. -/
theorem c2_at_most_ten_probes (fmt : ImgFormat) (hfmt : ¬ fmt = ImgFormat.png)
    (size : Int → Nat) (target : Nat) :
    (probe_qualities fmt size target).length = 10 :=
  probeList_length fmt hfmt size target 10 ⟨1, 100, 85⟩

/-- Witness for the amended C2 at a concrete never-fitting size function. -/
theorem c2_witness :
    ¬ ImgFormat.jpeg = ImgFormat.png ∧
      (probe_qualities ImgFormat.jpeg (fun _ => 1000000) 200).length = 10 :=
  ⟨by decide, c2_at_most_ten_probes ImgFormat.jpeg (by decide) (fun _ => 1000000) 200⟩

/-- If every executed probe overshoots the target, `best_quality` is never
updated, so the loop returns the `best` component of its starting state. -/
theorem searchLoop_keeps_best (fmt : ImgFormat) (hfmt : ¬ fmt = ImgFormat.png)
    (size : Int → Nat) (target : Nat) :
    ∀ (fuel : Nat) (s : SearchState),
      (∀ q ∈ probeList fmt size target fuel s, target < size q) →
      searchLoop fmt size target fuel s = s.best := by
  intro fuel
  induction fuel with
  | zero => intro s _; rfl
  | succ n ih =>
    intro s hall
    rw [probeList_succ_of_ne fmt hfmt] at hall
    rw [searchLoop_succ_of_ne fmt hfmt]
    have hmid := hall _ (List.mem_cons_self _ _)
    have hc : ¬ size (Int.fdiv (s.low + s.high) 2) ≤ target := by omega
    have hstep : searchStep size target s
        = ⟨s.low, Int.fdiv (s.low + s.high) 2 - 1, s.best⟩ := by
      simp [searchStep, hc]
    rw [hstep] at hall ⊢
    exact ih _ (fun q hq => hall q (List.mem_cons_of_mem _ hq))

/-- Claim C3: when no probed quality yields an encoded size within the
target, the search does not fail: it returns its initial default
`best_quality = 85` (which may exceed the target). -/
theorem c3_returns_default_85 (fmt : ImgFormat) (hfmt : ¬ fmt = ImgFormat.png)
    (size : Int → Nat) (target : Nat)
    (hall : ∀ q ∈ probe_qualities fmt size target, target < size q) :
    find_quality_for_target_size fmt size target = 85 :=
  searchLoop_keeps_best fmt hfmt size target 10 ⟨1, 100, 85⟩ hall

/-- Witness for C3: constant 1-byte-over size against a zero-byte target —
every probe overshoots and the default 85 comes back. -/
theorem c3_witness :
    (∀ q ∈ probe_qualities ImgFormat.webp (fun _ => 1) 0, 0 < (fun _ : Int => 1) q) ∧
    find_quality_for_target_size ImgFormat.webp (fun _ => 1) 0 = 85 :=
  ⟨by decide, c3_returns_default_85 ImgFormat.webp (by decide) (fun _ => 1) 0 (by decide)⟩

/-- Claim C4 counterexample: with a never-fitting size function the loop
probe-encodes at quality 0 — outside the claimed search space `[1, 100]` —
because after exhaustion `mid = (low + high) // 2` evaluates to `(1 + (-1)) // 2
= 0` and the loop keeps running. -/
theorem c4_counterexample :
    (0 : Int) ∈ probe_qualities ImgFormat.webp (fun _ => 1) 0 ∧ ¬ (1 ≤ (0 : Int)) := by
  refine ⟨by decide, by decide⟩

/-- Bounds that the loop state really maintains: `1 ≤ low ≤ 101`,
`-1 ≤ high ≤ 100`, `0 ≤ best ≤ 100`, hence every probed `mid` and the returned
quality lie in `[0, 100]`. -/
theorem searchLoop_in_range (fmt : ImgFormat) (size : Int → Nat) (target : Nat) :
    ∀ (fuel : Nat) (low high best : Int),
      1 ≤ low → low ≤ 101 → -1 ≤ high → high ≤ 100 → 0 ≤ best → best ≤ 100 →
      (∀ q ∈ probeList fmt size target fuel ⟨low, high, best⟩, 0 ≤ q ∧ q ≤ 100) ∧
      (0 ≤ searchLoop fmt size target fuel ⟨low, high, best⟩ ∧
        searchLoop fmt size target fuel ⟨low, high, best⟩ ≤ 100) := by
  intro fuel
  induction fuel with
  | zero =>
    intro low high best h1 h2 h3 h4 h5 h6
    refine ⟨by simp [probeList], ?_⟩
    simp only [searchLoop]
    exact ⟨h5, h6⟩
  | succ n ih =>
    intro low high best h1 h2 h3 h4 h5 h6
    have hmid2 : Int.fdiv (low + high) 2 = (low + high) / 2 :=
      Int.fdiv_eq_ediv _ (by norm_num)
    have hm0 : 0 ≤ (low + high) / 2 := by omega
    have hm100 : (low + high) / 2 ≤ 100 := by omega
    by_cases hp : fmt = ImgFormat.png
    · refine ⟨by simp [probeList, hp], ?_⟩
      have hval : searchLoop fmt size target (n + 1) ⟨low, high, best⟩ = (low + high) / 2 := by
        simp [searchLoop, hp, hmid2]
      rw [hval]
      exact ⟨hm0, hm100⟩
    · rw [probeList_succ_of_ne fmt hp, searchLoop_succ_of_ne fmt hp]
      simp only [searchStep, hmid2]
      by_cases hc : size ((low + high) / 2) ≤ target
      · rw [if_pos hc]
        obtain ⟨hprobe, hres⟩ := ih ((low + high) / 2 + 1) high ((low + high) / 2)
          (by omega) (by omega) h3 h4 hm0 hm100
        refine ⟨?_, hres⟩
        intro q hq
        rcases List.mem_cons.mp hq with rfl | hq2
        · exact ⟨by omega, by omega⟩
        · exact hprobe q hq2
      · rw [if_neg hc]
        obtain ⟨hprobe, hres⟩ := ih low ((low + high) / 2 - 1) best
          h1 h2 (by omega) (by omega) h5 h6
        refine ⟨?_, hres⟩
        intro q hq
        rcases List.mem_cons.mp hq with rfl | hq2
        · exact ⟨by omega, by omega⟩
        · exact hprobe q hq2

/-- Claim C4 (amended): the quality search probes only integer qualities in
`[0, 100]` — quality 0 is reachable once the window is exhausted, so the
claimed range `[1, 100]` is off by one at the bottom — and the returned
quality also lies in `[0, 100]`. -/
theorem c4_probes_and_result_in_range (fmt : ImgFormat) (size : Int → Nat) (target : Nat) :
    (∀ q ∈ probe_qualities fmt size target, 0 ≤ q ∧ q ≤ 100) ∧
    (0 ≤ find_quality_for_target_size fmt size target ∧
      find_quality_for_target_size fmt size target ≤ 100) :=
  searchLoop_in_range fmt size target 10 1 100 85 (by norm_num) (by norm_num)
    (by norm_num) (by norm_num) (by norm_num) (by norm_num)

/-- Witness for the amended C4 at a concrete size function. -/
theorem c4_witness :
    (∀ q ∈ probe_qualities ImgFormat.webp (fun _ => 1) 0, 0 ≤ q ∧ q ≤ 100) ∧
    (0 ≤ find_quality_for_target_size ImgFormat.webp (fun _ => 1) 0 ∧
      find_quality_for_target_size ImgFormat.webp (fun _ => 1) 0 ≤ 100) :=
  c4_probes_and_result_in_range ImgFormat.webp (fun _ => 1) 0

/-- Claim C8: a horizontal cut of a `W×H` image yields a top image of exactly
`floor(H/2)` rows and a bottom image of `H - floor(H/2)` rows, both of width
`W`; a vertical cut analogously yields widths `floor(W/2)` and
`W - floor(W/2)`, both of height `H`. -/
theorem c8_cut_dimensions (img : Img) :
    (cut_horizontal img).1.height = img.height / 2 ∧
    (cut_horizontal img).1.width = img.width ∧
    (cut_horizontal img).2.height = img.height - img.height / 2 ∧
    (cut_horizontal img).2.width = img.width ∧
    (cut_vertical img).1.width = img.width / 2 ∧
    (cut_vertical img).1.height = img.height ∧
    (cut_vertical img).2.width = img.width - img.width / 2 ∧
    (cut_vertical img).2.height = img.height := by
  simp [cut_horizontal, cut_vertical, Img.crop]

/-- Witness for C8 on a concrete 5×3 image. -/
theorem c8_witness :
    (cut_horizontal ⟨5, 3, fun x y => x + 10 * y⟩).1.height = 3 / 2 ∧
    (cut_horizontal ⟨5, 3, fun x y => x + 10 * y⟩).1.width = 5 ∧
    (cut_horizontal ⟨5, 3, fun x y => x + 10 * y⟩).2.height = 3 - 3 / 2 ∧
    (cut_horizontal ⟨5, 3, fun x y => x + 10 * y⟩).2.width = 5 ∧
    (cut_vertical ⟨5, 3, fun x y => x + 10 * y⟩).1.width = 5 / 2 ∧
    (cut_vertical ⟨5, 3, fun x y => x + 10 * y⟩).1.height = 3 ∧
    (cut_vertical ⟨5, 3, fun x y => x + 10 * y⟩).2.width = 5 - 5 / 2 ∧
    (cut_vertical ⟨5, 3, fun x y => x + 10 * y⟩).2.height = 3 :=
  c8_cut_dimensions ⟨5, 3, fun x y => x + 10 * y⟩

/-- Claim C10: the two halves of a cut exactly partition the source image —
stacking the top half above the bottom half (or the left half beside the
right half) reproduces the input pixel-for-pixel with nothing dropped and
nothing overlapping. -/
theorem c10_cut_halves_partition (img : Img) :
    Img.Eqv (vstack (cut_horizontal img).1 (cut_horizontal img).2) img ∧
    Img.Eqv (hstack (cut_vertical img).1 (cut_vertical img).2) img := by
  constructor
  · refine ⟨rfl, ?_, ?_⟩
    · simp only [vstack, cut_horizontal, Img.crop]
      omega
    · intro x y hx hy
      by_cases hy2 : y < img.height / 2
      · simp [vstack, cut_horizontal, Img.crop, hy2]
      · simp only [vstack, cut_horizontal, Img.crop, Nat.sub_zero, Nat.add_zero, if_neg hy2]
        have harg : y - img.height / 2 + img.height / 2 = y := by omega
        rw [harg]
  · refine ⟨?_, rfl, ?_⟩
    · simp only [hstack, cut_vertical, Img.crop]
      omega
    · intro x y hx hy
      by_cases hx2 : x < img.width / 2
      · simp [hstack, cut_vertical, Img.crop, hx2]
      · simp only [hstack, cut_vertical, Img.crop, Nat.sub_zero, Nat.add_zero, if_neg hx2]
        have harg : x - img.width / 2 + img.width / 2 = x := by omega
        rw [harg]

/-- Witness for C10 on a concrete 5×3 image. -/
theorem c10_witness :
    Img.Eqv (vstack (cut_horizontal ⟨5, 3, fun x y => x + 10 * y⟩).1
      (cut_horizontal ⟨5, 3, fun x y => x + 10 * y⟩).2) ⟨5, 3, fun x y => x + 10 * y⟩ ∧
    Img.Eqv (hstack (cut_vertical ⟨5, 3, fun x y => x + 10 * y⟩).1
      (cut_vertical ⟨5, 3, fun x y => x + 10 * y⟩).2) ⟨5, 3, fun x y => x + 10 * y⟩ :=
  c10_cut_halves_partition ⟨5, 3, fun x y => x + 10 * y⟩

/-- Claim C7 counterexample: a 3×2 image resized to preset width 400 with
aspect maintained gets height `int(2 * (400/3)) = 266` (truncation), while
the claimed formula `round(2 * 400 / 3) = round(266.67) = 267`; the claim is
false as stated. -/
theorem c7_counterexample :
    (resize_dims (fun _ _ _ _ => (0, 0)) 3 2 presetSettings) = (400, 266) ∧
    spec_preset_height 2 400 3 = 267 ∧
    ¬ (((resize_dims (fun _ _ _ _ => (0, 0)) 3 2 presetSettings).2 : Int)
        = spec_preset_height 2 400 3) := by
  have h1 : (resize_dims (fun _ _ _ _ => (0, 0)) 3 2 presetSettings) = (400, 266) := by
    decide
  have h2 : spec_preset_height 2 400 3 = 267 := by
    simp only [spec_preset_height]
    rw [round_eq]
    norm_num
  refine ⟨h1, h2, ?_⟩
  rw [h1, h2]
  decide

/-- Claim C7 (amended): in preset mode the resized width is the configured
preset width (the UI chooses it from {1920, 1200, 800, 400}); with aspect
maintained the height is the truncation `floor(height * target_width /
width)` — not `round(...)` as claimed — and with aspect not maintained the
height is unchanged. -/
theorem c7_preset_resize_dims (thumb : Nat → Nat → Nat → Nat → Nat × Nat)
    (s : Settings) (width height : Nat) (hmode : s.resize_mode = ResizeMode.preset) :
    (s.maintain_aspect = true →
      resize_dims thumb width height s = (s.preset_width, height * s.preset_width / width)) ∧
    (s.maintain_aspect = false →
      resize_dims thumb width height s = (s.preset_width, height)) := by
  constructor <;> intro h <;> simp [resize_dims, hmode, h]

/-- Witness for the amended C7 on a 3×2 image with preset width 400. -/
theorem c7_witness :
    (presetSettings.maintain_aspect = true →
      resize_dims (fun _ _ _ _ => (0, 0)) 3 2 presetSettings
        = (presetSettings.preset_width, 2 * presetSettings.preset_width / 3)) ∧
    (presetSettings.maintain_aspect = false →
      resize_dims (fun _ _ _ _ => (0, 0)) 3 2 presetSettings
        = (presetSettings.preset_width, 2)) :=
  c7_preset_resize_dims (fun _ _ _ _ => (0, 0)) presetSettings 3 2 (by decide)

/-- Claim C9: with png output the quality and target-size settings are
ignored — the encode issued is the lossless optimize-mode png write of the
image, identical across any two settings records that both select png (no
matter their `quality` or `target_size_kb`), and no error is raised (the
function is total and always produces this write). -/
theorem c9_png_ignores_quality_and_target (encSize : Int → Nat) (img : Img)
    (s t : Settings) (hs : s.output_format = ImgFormat.png)
    (ht : t.output_format = ImgFormat.png) :
    save_image encSize img s = EncodeResult.pngEnc img true ∧
    save_image encSize img s = save_image encSize img t := by
  constructor <;> simp [save_image, hs, ht]

/-- Witness for C9: two png settings records, one with `quality = 85,
target_size_kb = 0`, one with `quality = 10, target_size_kb = 500`, produce
the identical lossless png write. -/
theorem c9_witness :
    save_image (fun _ => 1000) ⟨2, 2, fun _ _ => 0⟩
        { presetSettings with output_format := ImgFormat.png }
      = EncodeResult.pngEnc ⟨2, 2, fun _ _ => 0⟩ true ∧
    save_image (fun _ => 1000) ⟨2, 2, fun _ _ => 0⟩
        { presetSettings with output_format := ImgFormat.png }
      = save_image (fun _ => 1000) ⟨2, 2, fun _ _ => 0⟩
        { presetSettings with
            output_format := ImgFormat.png
            quality := 10
            target_size_kb := 500 } :=
  c9_png_ignores_quality_and_target (fun _ => 1000) ⟨2, 2, fun _ _ => 0⟩ _ _ rfl rfl

/-- Claim C5 counterexample: file 0 fails and file 1 would succeed, yet the
batch processes nothing after the failure — the coordinator does not skip to
the next file, contradicting the claimed skip-and-continue policy (the error
is surfaced, but the rest of the batch is abandoned). -/
theorem c5_counterexample :
    process_files (fun f => if f = 0 then Except.error "boom" else Except.ok ()) [0, 1]
      = ([], some "Error: boom") := by
  decide

/-- Claim C5 (amended): a per-file encoding failure does not crash the batch
thread — the coordinator catches it and surfaces one error message to the
caller — but it aborts the batch at the failing file instead of skipping to
the next one: the files before the failure are the only ones processed, and
nothing after the failing file runs. -/
theorem c5_error_aborts_batch (proc : Nat → Except String Unit) (pre : List Nat)
    (f : Nat) (rest : List Nat) (e : String)
    (hpre : ∀ g ∈ pre, proc g = Except.ok ()) (hf : proc f = Except.error e) :
    process_files proc (pre ++ f :: rest) = (pre, some ("Error: " ++ e)) := by
  induction pre with
  | nil => simp [process_files, hf]
  | cons g gs ih =>
    have hg : proc g = Except.ok () := hpre g (by simp)
    have hgs := ih (fun x hx => hpre x (by simp [hx]))
    simp [process_files, hg, hgs]

/-- Witness for the amended C5: files `[7, 0, 9]` where 0 fails — file 7 is
processed, the error on 0 is surfaced, file 9 is never processed. -/
theorem c5_witness :
    ((fun f => if f = 0 then Except.error "boom" else Except.ok ()) 0
        = Except.error "boom") ∧
    process_files (fun f => if f = 0 then Except.error "boom" else Except.ok ()) [7, 0, 9]
      = ([7], some ("Error: " ++ "boom")) :=
  ⟨rfl,
    c5_error_aborts_batch (fun f => if f = 0 then Except.error "boom" else Except.ok ())
      [7] 0 [9] "boom"
      (fun g hg => by rw [List.mem_singleton] at hg; subst hg; rfl) rfl⟩

/-- Claim C6: when the watermark is enabled with empty text, processing stops
with the configuration warning before any file is opened or written — the
batch is never started (no `AppOutcome.started`), rather than silently
skipping the watermark step. -/
theorem c6_empty_watermark_text_rejected (proc : Nat → Except String Unit)
    (files : List Nat) (s : Settings) (hne : ¬ files = [])
    (hen : s.watermark_enabled = true) (htext : s.watermark_text = "") :
    process_images proc files s = AppOutcome.warnWatermarkText := by
  obtain ⟨f, fs, rfl⟩ := List.exists_cons_of_ne_nil hne
  simp [process_images, hen, htext]

/-- Witness for C6 with one selected file and watermark enabled on empty
text. -/
theorem c6_witness :
    ({ presetSettings with watermark_enabled := true }.watermark_text = "") ∧
    process_images (fun _ => Except.ok ()) [0]
        { presetSettings with watermark_enabled := true }
      = AppOutcome.warnWatermarkText :=
  ⟨rfl,
    c6_empty_watermark_text_rejected (fun _ => Except.ok ()) [0]
      { presetSettings with watermark_enabled := true } (by decide) rfl rfl⟩
